import Mathlib

/-!
Shallow embedding of the gazeqa run-orchestration service
(`src/gazeqa/run_service.py`, `api.py`, `workflow.py`, `exploration.py`,
`bfs.py`, `models.py`) together with theorems settling the frozen claims.
-/

namespace GazeQA

/-! ## Status history (`run_service.py`)

`StatusEntry` models one element of `status_history.json`:
a `{"status": ..., "timestamp": ...}` object. -/

structure StatusEntry where
  status : String
  timestamp : String
deriving DecidableEq, Repr

/-- Embeds `RunService._append_status_history` (run_service.py:382-396):
read the history, and append `{status, timestamp}` unless the trailing
entry already has the same status (`if history and history[-1].get("status")
== status: return`). The event always carries a status and timestamp in
this model, so the `None` early-return branch is not reachable. -/
def appendStatusHistory (history : List StatusEntry) (status timestamp : String) :
    List StatusEntry :=
  match history.getLast? with
  | some last => if last.status = status then history else history ++ [⟨status, timestamp⟩]
  | none => history ++ [⟨status, timestamp⟩]

/-- Embeds the effect of `RunService.update_status` (run_service.py:262-298)
on the persisted `status_history.json`: the method reads the history,
appends `{status, timestamp}` unconditionally, writes the file, and then
calls `_append_status_history` with the `run.status` event (same status and
timestamp). -/
def updateStatusHistory (history : List StatusEntry) (status timestamp : String) :
    List StatusEntry :=
  appendStatusHistory (history ++ [⟨status, timestamp⟩]) status timestamp

/-- Runs a sequence of `update_status` calls, each given as a
`(status, timestamp)` pair, against an initial persisted history. -/
def runUpdateStatusCalls (history : List StatusEntry) (calls : List (String × String)) :
    List StatusEntry :=
  calls.foldl (fun h c => updateStatusHistory h c.1 c.2) history

/-- `true` when no two consecutive entries of the history share a status. -/
def noConsecutiveDupStatus : List StatusEntry → Bool
  | [] => true
  | [_] => true
  | a :: b :: rest => a.status ≠ b.status && noConsecutiveDupStatus (b :: rest)

/-! ## Intake coercion (`models.py`) -/

/-- A Python value as it can appear for a budget field of the intake
payload: `None`, an `int`, a `bool`, a `str`, or a non-scalar container
(list/dict), which `int()` rejects with `TypeError`. -/
inductive PyVal where
  | noneV : PyVal
  | intV (n : Int) : PyVal
  | boolV (b : Bool) : PyVal
  | strV (s : String) : PyVal
  | containerV : PyVal
deriving DecidableEq, Repr

/-- Digits of a decimal literal read as a `Nat`; `none` unless the
character list is non-empty and all-digits. -/
def digitsToNat? (cs : List Char) : Option Nat :=
  if cs = [] then none
  else
    cs.foldl
      (fun acc c =>
        acc.bind fun n =>
          if c.isDigit then some (n * 10 + (c.toNat - '0'.toNat)) else none)
      (some 0)

/-- Model of Python `int(s)` on a string: surrounding whitespace is
stripped, an optional single `+`/`-` sign precedes a non-empty digit run.
(Underscore digit grouping is not modelled.) -/
def pyIntOfStr? (s : String) : Option Int :=
  let core := ((s.toList.dropWhile Char.isWhitespace).reverse.dropWhile
    Char.isWhitespace).reverse
  match core with
  | '+' :: rest => (digitsToNat? rest).map Int.ofNat
  | '-' :: rest => (digitsToNat? rest).map fun n => -(n : Int)
  | rest => (digitsToNat? rest).map Int.ofNat

/-- Model of Python `int(value)` for the value shapes of `PyVal`:
ints pass through, bools become 0/1, strings are parsed, `None` and
containers raise (`none` here). -/
def pyInt? : PyVal → Option Int
  | .noneV => none
  | .intV n => some n
  | .boolV b => some (if b then 1 else 0)
  | .strV s => pyIntOfStr? s
  | .containerV => none

/-- Embeds `_coerce_int` (models.py:130-137): `None` yields the default,
otherwise `int(value)` is attempted and `TypeError`/`ValueError` fall back
to the default. -/
def coerceInt (value : PyVal) (default : Int) : Int :=
  match value with
  | .noneV => default
  | v => (pyInt? v).getD default

/-- Embeds the budget slice of `CreateRunPayload.from_dict`
(models.py:72-82): coerce both budget fields and collect the validation
error keys raised for them. -/
def budgetErrors (timeRaw pageRaw : PyVal) : List String :=
  let timeBudget := coerceInt timeRaw 30
  let pageBudget := coerceInt pageRaw 200
  (if timeBudget ≤ 0 then ["budgets.time_budget_minutes"] else []) ++
    (if pageBudget ≤ 0 then ["budgets.page_budget"] else [])

/-! ## Task runner and retries (`workflow.py`) -/

/-- Embeds `RetryPolicy` (workflow.py:30-41). Backoff durations (Python
floats) are modelled as rationals. -/
structure RetryPolicy where
  maxAttempts : Nat := 3
  backoffSeconds : List ℚ := [0, 0, 0]
deriving DecidableEq, Repr

/-- Embeds `RetryPolicy.sleep_for` (workflow.py:37-41):
`backoff[min(max(0, attempt - 1), len(backoff) - 1)]`, and `0.0` when the
backoff list is empty. `Nat` subtraction realizes the `max(0, ...)`. -/
def RetryPolicy.sleepFor (p : RetryPolicy) (attempt : Nat) : ℚ :=
  if p.backoffSeconds = [] then 0
  else p.backoffSeconds.getD (min (attempt - 1) (p.backoffSeconds.length - 1)) 0

/-- The kind of a checkpoint the task runner records: `<name>.attempt`,
`<name>.retry`, `<name>.failed`, `<name>.succeeded`. -/
inductive CheckpointKind where
  | attemptCp | retryCp | failedCp | succeededCp
deriving DecidableEq, Repr

/-- One `record_checkpoint` call of `TemporalTaskRunner.run_activity`,
keyed by activity name, kind and attempt number. -/
structure Checkpoint where
  activity : String
  kind : CheckpointKind
  attempt : Nat
deriving DecidableEq, Repr

/-- Outcome of one invocation of the activity callable `func()`:
a normal return, a raised `RetryableWorkflowError`, or any other raised
exception (including plain `WorkflowError`). -/
inductive ActOutcome where
  | ok
  | retryableErr (msg : String)
  | otherErr (msg : String)
deriving DecidableEq, Repr

/-- `true` iff the invocation raised `RetryableWorkflowError`. -/
def ActOutcome.isRetryable : ActOutcome → Bool
  | .retryableErr _ => true
  | _ => false

/-- Message of a raised `RetryableWorkflowError` (dummy otherwise). -/
def ActOutcome.retryMsg : ActOutcome → String
  | .retryableErr m => m
  | _ => ""

/-- How `run_activity` terminates: normal return, propagating the final
`RetryableWorkflowError`, propagating another exception, or (only when
`max_attempts == 0`) the post-loop `WorkflowError` for an activity that
never ran. -/
inductive ActResult where
  | completed
  | raisedRetryable (msg : String)
  | raisedOther (msg : String)
  | incomplete
deriving DecidableEq, Repr

/-- Observable trace of one `run_activity` call: the checkpoints recorded,
how many times `func()` was invoked, the sleep durations between
consecutive attempts, and how the call terminated. -/
structure ActTrace where
  checkpoints : List Checkpoint
  invocations : Nat
  sleeps : List ℚ
  result : ActResult
deriving DecidableEq, Repr

/-- Embeds the attempt loop of `TemporalTaskRunner.run_activity`
(workflow.py:51-109). `f k` is the outcome of the `k`-th invocation of
`func` (1-based); `attempt` is the current attempt number and `remaining`
the number of attempts still allowed including the current one, so
`remaining = 0` inside a call corresponds to `attempt > max_attempts`
(loop exhausted). On `RetryableWorkflowError` with `attempt ≥
max_attempts` the runner records `<name>.failed` and re-raises; otherwise
it sleeps `sleep_for(attempt + 1)` and continues. Any other exception
records `<name>.failed` and propagates at once. -/
def runActivityAux (name : String) (f : Nat → ActOutcome) (policy : RetryPolicy)
    (attempt : Nat) : Nat → ActTrace
  | 0 => ⟨[], 0, [], .incomplete⟩
  | remaining + 1 =>
    match f attempt with
    | .ok =>
      ⟨[⟨name, .attemptCp, attempt⟩, ⟨name, .succeededCp, attempt⟩], 1, [], .completed⟩
    | .otherErr msg =>
      ⟨[⟨name, .attemptCp, attempt⟩, ⟨name, .failedCp, attempt⟩], 1, [],
        .raisedOther msg⟩
    | .retryableErr msg =>
      if remaining = 0 then
        ⟨[⟨name, .attemptCp, attempt⟩, ⟨name, .retryCp, attempt⟩,
            ⟨name, .failedCp, attempt⟩], 1, [], .raisedRetryable msg⟩
      else
        let rest := runActivityAux name f policy (attempt + 1) remaining
        ⟨⟨name, .attemptCp, attempt⟩ :: ⟨name, .retryCp, attempt⟩ :: rest.checkpoints,
          rest.invocations + 1, policy.sleepFor (attempt + 1) :: rest.sleeps,
          rest.result⟩

/-- Embeds `TemporalTaskRunner.run_activity` (workflow.py:51-112): the
`for attempt in range(1, max_attempts + 1)` loop starting at attempt 1;
with `max_attempts = 0` the loop body never runs and the post-loop
`WorkflowError` is raised (`incomplete`). -/
def runActivity (name : String) (policy : RetryPolicy) (f : Nat → ActOutcome) :
    ActTrace :=
  if policy.maxAttempts = 0 then ⟨[], 0, [], .incomplete⟩
  else runActivityAux name f policy 1 policy.maxAttempts

/-! ## Auth activity (`workflow.py` `RunWorkflow._execute_auth`) -/

/-- The value returned by the injected auth orchestrator, as the auth
activity inspects it: either not a dict at all, or a dict with its
`success` flag and optional `error` message. -/
inductive OrchResult where
  | notDict
  | dict (success : Bool) (error : Option String)
deriving DecidableEq, Repr

/-- Embeds `RunWorkflow._execute_auth` (workflow.py:307-316) as the
outcome of one invocation. Every raise in it is a plain `WorkflowError`
(the base class), not a `RetryableWorkflowError`: empty credentials,
non-dict results, and `success=false` results (message from the `error`
field, default "authentication failed"). -/
def executeAuth (credsEmpty : Bool) (result : OrchResult) : ActOutcome :=
  if credsEmpty then .otherErr "No credentials provided for authentication phase"
  else
    match result with
    | .notDict => .otherErr "Authentication orchestrator returned unexpected payload"
    | .dict success err =>
      if success then .ok else .otherErr (err.getD "authentication failed")

/-- `true` for the orchestrator results the claim is about: non-dict, or
`success=false`. -/
def OrchResult.isBad : OrchResult → Bool
  | .notDict => true
  | .dict success _ => !success

/-- The error message `_execute_auth` raises for a bad result. -/
def OrchResult.failMsg : OrchResult → String
  | .notDict => "Authentication orchestrator returned unexpected payload"
  | .dict _ err => err.getD "authentication failed"

/-! ## Exploration activity (`exploration.py`) -/

/-- Embeds `PageDescriptor` (exploration.py:18-25); the Python `section`
field is called `sectionName` here because `section` is a Lean keyword. -/
structure PageDescriptor where
  url : String
  title : String
  sectionName : String
  pageId : Option String := none
  screenshot : Option String := none
  domSnapshot : Option String := none
deriving DecidableEq, Repr

/-- Python's `needle in haystack` substring test. -/
def strContains (haystack needle : String) : Bool :=
  decide (needle.toList <:+: haystack.toList)

/-- Model of Python `str.lower()` (ASCII case folding), written over the
character list so that it evaluates in the kernel. -/
def strLower (s : String) : String :=
  String.mk (s.toList.map Char.toLower)

/-- Embeds `_match_keyword` (exploration.py:189-196, and identically
bfs.py:238-245): lowercase the keywords, build the haystack
`f"{url} {title}".lower()`, and return the first non-empty keyword that
occurs in it. -/
def matchKeyword (keywords : List String) (p : PageDescriptor) : Option String :=
  let haystack := strLower (p.url ++ " " ++ p.title)
  (keywords.map strLower).find? (fun kw => kw ≠ "" && strContains haystack kw)

/-- Embeds `ExplorationConfig` (exploration.py:38-51); the coverage
threshold (a Python float) is modelled as a rational. -/
structure ExplorationConfig where
  coverageThreshold : ℚ := 8 / 10
  maxPagesPerRun : Int := 0
  destructiveKeywords : List String :=
    ["delete", "destroy", "remove", "drop", "shutdown", "wipe"]
deriving Repr

/-- Embeds `_rate_limited` (exploration.py:198-202, and identically
bfs.py:247-251): `false` when the limit is ≤ 0, else
`processed_count >= limit`. -/
def rateLimitedBy (limit : Int) (processedCount : Nat) : Bool :=
  if limit ≤ 0 then false else limit ≤ (processedCount : Int)

/-- Python `int()` truncation toward zero on a rational. -/
def ratTrunc (q : ℚ) : Int :=
  if q < 0 then -⌊-q⌋ else ⌊q⌋

/-- Embeds `budget = max(1, int(len(pages) * self.config.coverage_threshold))`
(exploration.py:87). The Python value is always ≥ 1, so `Nat` carries it. -/
def explBudget (threshold : ℚ) (n : Nat) : Nat :=
  max 1 (ratTrunc ((n : ℚ) * threshold)).toNat

/-- Embeds the candidate loop of `ExplorationEngine.explore`
(exploration.py:96-127): each candidate is blocklist-skipped, or triggers
the rate-limit break (appending itself and all remaining candidates to
skipped), or is visited. Returns `(visited, skipped, rate_limited)`. -/
def exploreLoop (cfg : ExplorationConfig) :
    List PageDescriptor → List PageDescriptor → List PageDescriptor →
      (List PageDescriptor × List PageDescriptor × Bool)
  | [], visited, skipped => (visited, skipped, false)
  | p :: rest, visited, skipped =>
    match matchKeyword cfg.destructiveKeywords p with
    | some _ => exploreLoop cfg rest visited (skipped ++ [p])
    | none =>
      if rateLimitedBy cfg.maxPagesPerRun visited.length then
        (visited, skipped ++ [p] ++ rest, true)
      else exploreLoop cfg rest (visited ++ [p]) skipped

/-- The exploration result projected to the fields the claims are about;
the run id, timestamp and the derived `coverage_percent` float are not
modelled. -/
structure ExplorationResultM where
  visitedPages : List PageDescriptor
  skippedPages : List PageDescriptor
deriving DecidableEq, Repr

/-- Embeds `ExplorationEngine.explore` (exploration.py:83-144): empty
page list raises (`none`); candidates are the first `budget` pages and
the remainder is baseline-skipped; after a non-rate-limited loop, the
leftover filter (`page not in visited and page not in skipped`) is
extended onto skipped — it provably yields nothing, so the in-place
mutation during Python's `extend` has no effect to model. -/
def explore (cfg : ExplorationConfig) (pages : List PageDescriptor) :
    Option ExplorationResultM :=
  if pages = [] then none
  else
    let budget := explBudget cfg.coverageThreshold pages.length
    let candidates := pages.take budget
    let baselineSkipped := pages.drop budget
    let out := exploreLoop cfg candidates [] []
    let visited := out.1
    let skipped := out.2.1
    let rateLimited := out.2.2
    let skipped' :=
      if rateLimited then skipped
      else skipped ++ candidates.filter
        (fun p => decide (p ∉ visited) && decide (p ∉ skipped))
    some ⟨visited, skipped' ++ baselineSkipped⟩

theorem exploreLoop_cons_kw (cfg : ExplorationConfig)
    (p : PageDescriptor) (rest v s : List PageDescriptor) (kw : String)
    (hk : matchKeyword cfg.destructiveKeywords p = some kw) :
    exploreLoop cfg (p :: rest) v s = exploreLoop cfg rest v (s ++ [p]) := by
  simp [exploreLoop, hk]

theorem exploreLoop_cons_rl (cfg : ExplorationConfig)
    (p : PageDescriptor) (rest v s : List PageDescriptor)
    (hk : matchKeyword cfg.destructiveKeywords p = none)
    (hrl : rateLimitedBy cfg.maxPagesPerRun v.length = true) :
    exploreLoop cfg (p :: rest) v s = (v, s ++ [p] ++ rest, true) := by
  simp [exploreLoop, hk, hrl]

theorem exploreLoop_cons_visit (cfg : ExplorationConfig)
    (p : PageDescriptor) (rest v s : List PageDescriptor)
    (hk : matchKeyword cfg.destructiveKeywords p = none)
    (hrl : rateLimitedBy cfg.maxPagesPerRun v.length = false) :
    exploreLoop cfg (p :: rest) v s = exploreLoop cfg rest (v ++ [p]) s := by
  simp [exploreLoop, hk, hrl]

theorem exploreLoop_length (cfg : ExplorationConfig) :
    ∀ (cs v s : List PageDescriptor),
      (exploreLoop cfg cs v s).1.length + (exploreLoop cfg cs v s).2.1.length =
        v.length + s.length + cs.length := by
  intro cs
  induction cs with
  | nil => intro v s; simp [exploreLoop]
  | cons p rest ih =>
    intro v s
    cases hk : matchKeyword cfg.destructiveKeywords p with
    | some kw =>
      rw [exploreLoop_cons_kw cfg p rest v s kw hk]
      have := ih v (s ++ [p])
      simp at this ⊢
      omega
    | none =>
      cases hrl : rateLimitedBy cfg.maxPagesPerRun v.length with
      | true =>
        rw [exploreLoop_cons_rl cfg p rest v s hk hrl]
        simp
        omega
      | false =>
        rw [exploreLoop_cons_visit cfg p rest v s hk hrl]
        have := ih (v ++ [p]) s
        simp at this ⊢
        omega

theorem exploreLoop_visited_extends (cfg : ExplorationConfig) :
    ∀ (cs v s : List PageDescriptor),
      ∃ t, (exploreLoop cfg cs v s).1 = v ++ t ∧ t.Sublist cs := by
  intro cs
  induction cs with
  | nil => intro v s; exact ⟨[], by simp [exploreLoop], List.nil_sublist _⟩
  | cons p rest ih =>
    intro v s
    cases hk : matchKeyword cfg.destructiveKeywords p with
    | some kw =>
      obtain ⟨t, h1, h2⟩ := ih v (s ++ [p])
      exact ⟨t, by rw [exploreLoop_cons_kw cfg p rest v s kw hk]; exact h1,
        h2.cons _⟩
    | none =>
      cases hrl : rateLimitedBy cfg.maxPagesPerRun v.length with
      | true =>
        exact ⟨[], by rw [exploreLoop_cons_rl cfg p rest v s hk hrl]; simp,
          List.nil_sublist _⟩
      | false =>
        obtain ⟨t, h1, h2⟩ := ih (v ++ [p]) s
        refine ⟨p :: t, ?_, h2.cons₂ _⟩
        rw [exploreLoop_cons_visit cfg p rest v s hk hrl, h1]
        simp

theorem exploreLoop_visited_bound (cfg : ExplorationConfig)
    (hpos : 0 < cfg.maxPagesPerRun) :
    ∀ (cs v s : List PageDescriptor),
      (v.length : Int) ≤ cfg.maxPagesPerRun →
      ((exploreLoop cfg cs v s).1.length : Int) ≤ cfg.maxPagesPerRun := by
  intro cs
  induction cs with
  | nil => intro v s hv; simpa [exploreLoop] using hv
  | cons p rest ih =>
    intro v s hv
    cases hk : matchKeyword cfg.destructiveKeywords p with
    | some kw =>
      rw [exploreLoop_cons_kw cfg p rest v s kw hk]
      exact ih v (s ++ [p]) hv
    | none =>
      cases hrl : rateLimitedBy cfg.maxPagesPerRun v.length with
      | true =>
        rw [exploreLoop_cons_rl cfg p rest v s hk hrl]
        exact hv
      | false =>
        have hlt : (v.length : Int) < cfg.maxPagesPerRun := by
          simp only [rateLimitedBy] at hrl
          rw [if_neg (by omega)] at hrl
          simpa using hrl
        rw [exploreLoop_cons_visit cfg p rest v s hk hrl]
        refine ih (v ++ [p]) s ?_
        simp
        omega

theorem exploreLoop_mem_mono (cfg : ExplorationConfig) (p : PageDescriptor) :
    ∀ (cs v s : List PageDescriptor), (p ∈ v ∨ p ∈ s) →
      p ∈ (exploreLoop cfg cs v s).1 ∨ p ∈ (exploreLoop cfg cs v s).2.1 := by
  intro cs
  induction cs with
  | nil => intro v s h; simpa [exploreLoop] using h
  | cons r rest ih =>
    intro v s h
    cases hk : matchKeyword cfg.destructiveKeywords r with
    | some kw =>
      rw [exploreLoop_cons_kw cfg r rest v s kw hk]
      refine ih v (s ++ [r]) ?_
      rcases h with h | h
      · exact Or.inl h
      · exact Or.inr (List.mem_append_left _ h)
    | none =>
      cases hrl : rateLimitedBy cfg.maxPagesPerRun v.length with
      | true =>
        rw [exploreLoop_cons_rl cfg r rest v s hk hrl]
        rcases h with h | h
        · exact Or.inl h
        · exact Or.inr (by simp [h])
      | false =>
        rw [exploreLoop_cons_visit cfg r rest v s hk hrl]
        refine ih (v ++ [r]) s ?_
        rcases h with h | h
        · exact Or.inl (List.mem_append_left _ h)
        · exact Or.inr h

theorem exploreLoop_covers (cfg : ExplorationConfig) :
    ∀ (cs v s : List PageDescriptor), ∀ p ∈ cs,
      p ∈ (exploreLoop cfg cs v s).1 ∨ p ∈ (exploreLoop cfg cs v s).2.1 := by
  intro cs
  induction cs with
  | nil => intro v s p hp; cases hp
  | cons q rest ih =>
    intro v s p hp
    rcases List.mem_cons.mp hp with rfl | hp'
    · cases hk : matchKeyword cfg.destructiveKeywords p with
      | some kw =>
        rw [exploreLoop_cons_kw cfg p rest v s kw hk]
        exact exploreLoop_mem_mono cfg p rest v (s ++ [p]) (Or.inr (by simp))
      | none =>
        cases hrl : rateLimitedBy cfg.maxPagesPerRun v.length with
        | true =>
          rw [exploreLoop_cons_rl cfg p rest v s hk hrl]
          exact Or.inr (by simp)
        | false =>
          rw [exploreLoop_cons_visit cfg p rest v s hk hrl]
          exact exploreLoop_mem_mono cfg p rest (v ++ [p]) s (Or.inl (by simp))
    · cases hk : matchKeyword cfg.destructiveKeywords q with
      | some kw =>
        rw [exploreLoop_cons_kw cfg q rest v s kw hk]
        exact ih v (s ++ [q]) p hp'
      | none =>
        cases hrl : rateLimitedBy cfg.maxPagesPerRun v.length with
        | true =>
          rw [exploreLoop_cons_rl cfg q rest v s hk hrl]
          exact Or.inr (by simp [hp'])
        | false =>
          rw [exploreLoop_cons_visit cfg q rest v s hk hrl]
          exact ih (v ++ [q]) s p hp'

theorem explBudget_le_ceil (t : ℚ) (n : Nat) (hn : 1 ≤ n) (ht : 0 < t) :
    (explBudget t n : Int) ≤ ⌈(n : ℚ) * t⌉ := by
  have hnt : 0 < (n : ℚ) * t := by positivity
  have hceil : 1 ≤ ⌈(n : ℚ) * t⌉ := Int.ceil_pos.mpr hnt
  have htr : ratTrunc ((n : ℚ) * t) = ⌊(n : ℚ) * t⌋ := by
    simp [ratTrunc, not_lt.mpr hnt.le]
  have hfc : ⌊(n : ℚ) * t⌋ ≤ ⌈(n : ℚ) * t⌉ := Int.floor_le_ceil _
  have hcast : ((explBudget t n : Nat) : Int) = max 1 (max ⌊(n : ℚ) * t⌋ 0) := by
    simp [explBudget, htr, Int.toNat_eq_max, Nat.cast_max]
  omega

/-- C7: for a non-empty page list and a positive coverage threshold (the
spec constrains it to `(0,1]`), `explore` succeeds; visited and skipped
partition the input by count; the visited count is bounded by
`⌈threshold · |pages|⌉` and, when `max_pages_per_run > 0`, by that limit;
the visited pages come from the first `max(1, ⌊|pages| · threshold⌋)`
pages in input order, and the remainder of the input is a suffix of the
skipped list (baseline-skipped). -/
theorem exploration_budget_contract (cfg : ExplorationConfig)
    (pages : List PageDescriptor) (hne : pages ≠ [])
    (ht : 0 < cfg.coverageThreshold) :
    ∃ res, explore cfg pages = some res ∧
      res.visitedPages.length + res.skippedPages.length = pages.length ∧
      ((res.visitedPages.length : Int) ≤
        ⌈(pages.length : ℚ) * cfg.coverageThreshold⌉) ∧
      (0 < cfg.maxPagesPerRun →
        (res.visitedPages.length : Int) ≤ cfg.maxPagesPerRun) ∧
      res.visitedPages.Sublist
        (pages.take (explBudget cfg.coverageThreshold pages.length)) ∧
      (∃ pre, res.skippedPages =
        pre ++ pages.drop (explBudget cfg.coverageThreshold pages.length)) := by
  have hn1 : 1 ≤ pages.length := by
    cases pages with
    | nil => exact absurd rfl hne
    | cons a l => simp
  set budget := explBudget cfg.coverageThreshold pages.length with hbudget
  set candidates := pages.take budget with hcand
  set out := exploreLoop cfg candidates [] [] with hout
  have hlen := exploreLoop_length cfg candidates [] []
  have hcover := exploreLoop_covers cfg candidates [] []
  obtain ⟨t, hvt, hsub⟩ := exploreLoop_visited_extends cfg candidates [] []
  rw [← hout] at hlen hcover hvt
  have hfilter : candidates.filter
      (fun p => decide (p ∉ out.1) && decide (p ∉ out.2.1)) = [] := by
    apply List.filter_eq_nil_iff.mpr
    intro p hp
    rcases hcover p hp with h | h <;> simp [h]
  refine ⟨⟨out.1, (if out.2.2 then out.2.1 else out.2.1 ++ candidates.filter
    (fun p => decide (p ∉ out.1) && decide (p ∉ out.2.1))) ++
      pages.drop budget⟩, ?_, ?_, ?_, ?_, ?_, ?_⟩
  · simp only [explore, if_neg hne]
  · have hsk : (if out.2.2 then out.2.1 else out.2.1 ++ candidates.filter
        (fun p => decide (p ∉ out.1) && decide (p ∉ out.2.1))) = out.2.1 := by
      cases h22 : out.2.2 with
      | true => simp
      | false =>
        simp only [Bool.false_eq_true, if_false]
        rw [hfilter, List.append_nil]
    rw [hsk]
    have hclen : candidates.length + (pages.drop budget).length = pages.length := by
      simp [hcand]
      omega
    simp only [List.length_append]
    simp at hlen
    omega
  · show (out.1.length : Int) ≤ ⌈(pages.length : ℚ) * cfg.coverageThreshold⌉
    have hvle : out.1.length ≤ candidates.length := by
      rw [hvt]
      simpa using hsub.length_le
    have hcle : candidates.length ≤ budget := by simp [hcand]
    have := explBudget_le_ceil cfg.coverageThreshold pages.length hn1 ht
    simp only [← hbudget] at this
    omega
  · intro hpos
    show (out.1.length : Int) ≤ cfg.maxPagesPerRun
    have := exploreLoop_visited_bound cfg hpos candidates [] []
      (by simpa using hpos.le)
    simpa [← hout] using this
  · rw [hvt]
    have : t.Sublist candidates := hsub
    simpa using this
  · exact ⟨_, rfl⟩

/-- Witness for C7 at a concrete two-page list with threshold 1 and no
page limit. -/
theorem exploration_budget_contract_witness :
    ∃ res, explore ⟨1, 0, ["delete"]⟩
        [⟨"https://a.example/x", "X", "mission", none, none, none⟩,
         ⟨"https://a.example/y", "Y", "mission", none, none, none⟩] = some res ∧
      res.visitedPages.length + res.skippedPages.length =
        ([⟨"https://a.example/x", "X", "mission", none, none, none⟩,
          ⟨"https://a.example/y", "Y", "mission", none, none, none⟩] :
            List PageDescriptor).length ∧
      ((res.visitedPages.length : Int) ≤
        ⌈(([⟨"https://a.example/x", "X", "mission", none, none, none⟩,
            ⟨"https://a.example/y", "Y", "mission", none, none, none⟩] :
              List PageDescriptor).length : ℚ) * (1 : ℚ)⌉) ∧
      ((0 : Int) < 0 → (res.visitedPages.length : Int) ≤ 0) ∧
      res.visitedPages.Sublist
        (([⟨"https://a.example/x", "X", "mission", none, none, none⟩,
           ⟨"https://a.example/y", "Y", "mission", none, none, none⟩] :
             List PageDescriptor).take (explBudget 1 2)) ∧
      (∃ pre, res.skippedPages =
        pre ++ ([⟨"https://a.example/x", "X", "mission", none, none, none⟩,
                 ⟨"https://a.example/y", "Y", "mission", none, none, none⟩] :
                   List PageDescriptor).drop (explBudget 1 2)) :=
  exploration_budget_contract ⟨1, 0, ["delete"]⟩
    [⟨"https://a.example/x", "X", "mission", none, none, none⟩,
     ⟨"https://a.example/y", "Y", "mission", none, none, none⟩]
    (by simp) (by norm_num)

/-! ## BFS crawl activity (`bfs.py`) -/

/-- Embeds `CrawlConfig` (bfs.py:20-33). -/
structure CrawlConfig where
  maxDepth : Int := 3
  skipKeywords : List String := ["logout", "signout", "sign-out"]
  maxNodesPerRun : Int := 0
  destructiveKeywords : List String :=
    ["delete", "destroy", "remove", "drop", "shutdown", "wipe"]
deriving Repr

/-- Embeds `CrawlRecord` (bfs.py:36-53). -/
structure CrawlRecord where
  page : PageDescriptor
  depth : Int
  sourcePageId : Option String
deriving DecidableEq, Repr

/-- Embeds `SkipRecord` (bfs.py:56-68). -/
structure SkipRecord where
  url : String
  reason : String
  sourcePageId : Option String
  sourceUrl : Option String
deriving DecidableEq, Repr

/-- Embeds `_guardrail_event` (bfs.py:253-283): the payload carries
run id, type, url, title, depth, a timestamp from the wall clock, parent
linkage when present, the matched keyword for blocklist events, and the
node limit for rate-limit events. -/
structure GuardrailEvent where
  runId : String
  eventType : String
  url : String
  title : String
  depth : Int
  sourcePageId : Option String
  sourceUrl : Option String
  keyword : Option String
  limit : Option Int
  timestamp : String
deriving DecidableEq, Repr

/-- Embeds `_should_skip` (bfs.py:198-202): empty URLs never match, else
any skip keyword occurring in the lowercased URL. -/
def shouldSkip (cfg : CrawlConfig) (p : PageDescriptor) : Bool :=
  if p.url = "" then false
  else cfg.skipKeywords.any (fun kw => strContains (strLower p.url) kw)

/-- Embeds `page.page_id or page.url` (bfs.py:183): the adjacency key is
the page id unless it is `None` or empty. -/
def pageKey (p : PageDescriptor) : String :=
  match p.pageId with
  | some s => if s = "" then p.url else s
  | none => p.url

/-- Builds the guardrail payload of `_guardrail_event` for the crawl. -/
def crawlGuardrail (cfg : CrawlConfig) (runId ts : String) (eventType : String)
    (page : PageDescriptor) (depth : Int) (parent : Option PageDescriptor)
    (kw : Option String) : GuardrailEvent :=
  ⟨runId, eventType, page.url, page.title, depth,
    parent.bind (fun q => q.pageId), parent.map (fun q => q.url), kw,
    if eventType = "rate_limit" then some cfg.maxNodesPerRun else none, ts⟩

/-- The skip record built at bfs.py:124-131 / 146-153 / 166-172:
`source_page_id = parent.page_id if parent else None` and likewise for
`source_url`. -/
def skipRecordFor (page : PageDescriptor) (reason : String)
    (parent : Option PageDescriptor) : SkipRecord :=
  ⟨page.url, reason, parent.bind (fun q => q.pageId),
    parent.map (fun q => q.url)⟩

/-- A queue item of the BFS: `(page, depth, parent)`. -/
abbrev CrawlItem := PageDescriptor × Int × Option PageDescriptor

/-- Result of the crawl projected to the fields the claims are about:
the visited records in insertion order (`list(visited.values())`), the
skip records, and the guardrail events. -/
structure CrawlOut where
  visited : List CrawlRecord
  skipped : List SkipRecord
  guardrails : List GuardrailEvent
deriving DecidableEq, Repr

/-- Embeds the `while queue` loop of `BFSCrawler.crawl` (bfs.py:100-196).
The visited dict is an insertion-ordered association list keyed by the
lowercased URL. Per dequeued `(page, depth, parent)`: an already-visited
key is dropped; then, if the visited count has reached a positive
`max_nodes_per_run`, a rate-limit guardrail and a `rate_limited` skip
record are emitted and the whole loop breaks; then destructive-keyword
blocklisting and skip-keyword matching skip the page; otherwise the page
is recorded and, while `depth < max_depth`, its adjacency children are
enqueued in order. `fuel` bounds the number of dequeues; the Python loop
performs finitely many (each page key is visited at most once), and
`crawl` below passes a dominating fuel. -/
def crawlAux (cfg : CrawlConfig) (runId ts : String)
    (adj : List (String × List PageDescriptor)) :
    Nat → List CrawlItem → List (String × CrawlRecord) → List SkipRecord →
      List GuardrailEvent → CrawlOut
  | 0, _, visited, skipped, gr => ⟨visited.map Prod.snd, skipped, gr⟩
  | _ + 1, [], visited, skipped, gr => ⟨visited.map Prod.snd, skipped, gr⟩
  | n + 1, item :: rest, visited, skipped, gr =>
    let page := item.1
    let depth := item.2.1
    let parent := item.2.2
    let key := strLower page.url
    if (visited.lookup key).isSome then
      crawlAux cfg runId ts adj n rest visited skipped gr
    else if rateLimitedBy cfg.maxNodesPerRun visited.length then
      ⟨visited.map Prod.snd,
        skipped ++ [skipRecordFor page "rate_limited" parent],
        gr ++ [crawlGuardrail cfg runId ts "rate_limit" page depth parent none]⟩
    else
      match matchKeyword cfg.destructiveKeywords page with
      | some kw =>
        crawlAux cfg runId ts adj n rest visited
          (skipped ++ [skipRecordFor page "destructive_blocklist" parent])
          (gr ++ [crawlGuardrail cfg runId ts "blocklist" page depth parent (some kw)])
      | none =>
        if shouldSkip cfg page then
          crawlAux cfg runId ts adj n rest visited
            (skipped ++ [skipRecordFor page "skip_keyword_match" parent]) gr
        else
          let record : CrawlRecord := ⟨page, depth, parent.bind (fun q => q.pageId)⟩
          let visited' := visited ++ [(key, record)]
          if cfg.maxDepth ≤ depth then
            crawlAux cfg runId ts adj n rest visited' skipped gr
          else
            let children := (adj.lookup (pageKey page)).getD []
            crawlAux cfg runId ts adj n
              (rest ++ children.map (fun c => (c, depth + 1, some page)))
              visited' skipped gr

/-- Total number of pages across all adjacency lists. -/
def adjSize (adj : List (String × List PageDescriptor)) : Nat :=
  (adj.map (fun e => e.2.length)).sum

/-- A fuel value dominating the number of dequeues the Python loop can
perform: at most `|seeds| + visits · maxChildren` items are ever
enqueued, and visits are bounded by the number of distinct page URLs. -/
def crawlFuel (seeds : List PageDescriptor)
    (adj : List (String × List PageDescriptor)) : Nat :=
  (seeds.length + adjSize adj + 1) * (adjSize adj + 1)

/-- Embeds `BFSCrawler.crawl` (bfs.py:100-196): seeds enter the queue at
depth 0 with no parent; the state starts empty. -/
def crawl (cfg : CrawlConfig) (runId ts : String)
    (seeds : List PageDescriptor)
    (adj : List (String × List PageDescriptor)) : CrawlOut :=
  crawlAux cfg runId ts adj (crawlFuel seeds adj)
    (seeds.map (fun s => (s, 0, none))) [] [] []

/-- One line of `page_map.jsonl` (`CrawlRecord.to_artifact` serialized by
`json.dumps`, bfs.py:42-53 and 215-218): key order and separators as
Python produces them; string escaping is not modelled. -/
def crawlRecordLine (r : CrawlRecord) : String :=
  let q := fun (s : String) => "\"" ++ s ++ "\""
  let opt := fun (o : Option String) => match o with
    | none => "null"
    | some s => q s
  "\x7b\"page_id\": " ++ opt r.page.pageId ++
    ", \"url\": " ++ q r.page.url ++
    ", \"title\": " ++ q r.page.title ++
    ", \"section\": " ++ q r.page.sectionName ++
    ", \"depth\": " ++ toString r.depth ++
    ", \"source_page_id\": " ++ opt r.sourcePageId ++
    ", \"screenshot\": " ++ opt r.page.screenshot ++
    ", \"dom_snapshot\": " ++ opt r.page.domSnapshot ++ "\x7d"

/-- The byte content `_persist` writes to `page_map.jsonl`
(bfs.py:215-218): one serialized record per visited page, each followed
by a newline. -/
def pageMapJsonl (out : CrawlOut) : String :=
  String.join (out.visited.map (fun r => crawlRecordLine r ++ "\n"))

theorem crawlAux_visited_clock_free (cfg : CrawlConfig) (runId : String)
    (adj : List (String × List PageDescriptor)) (ts1 ts2 : String) :
    ∀ (fuel : Nat) (queue : List CrawlItem)
      (visited : List (String × CrawlRecord)) (skipped : List SkipRecord)
      (gr1 gr2 : List GuardrailEvent),
      (crawlAux cfg runId ts1 adj fuel queue visited skipped gr1).visited =
        (crawlAux cfg runId ts2 adj fuel queue visited skipped gr2).visited ∧
      (crawlAux cfg runId ts1 adj fuel queue visited skipped gr1).skipped =
        (crawlAux cfg runId ts2 adj fuel queue visited skipped gr2).skipped := by
  intro fuel
  induction fuel with
  | zero => intros; simp [crawlAux]
  | succ n ih =>
    intro queue visited skipped gr1 gr2
    cases queue with
    | nil => simp [crawlAux]
    | cons item rest =>
      obtain ⟨page, depth, parent⟩ := item
      by_cases h1 : (visited.lookup (strLower page.url)).isSome = true
      · simpa [crawlAux, h1] using ih rest visited skipped gr1 gr2
      · by_cases h2 : rateLimitedBy cfg.maxNodesPerRun visited.length = true
        · simp [crawlAux, h1, h2]
        · cases h3 : matchKeyword cfg.destructiveKeywords page with
          | some kw =>
            simpa [crawlAux, h1, h2, h3] using
              ih rest visited
                (skipped ++ [skipRecordFor page "destructive_blocklist" parent])
                (gr1 ++ [crawlGuardrail cfg runId ts1 "blocklist" page depth
                  parent (some kw)])
                (gr2 ++ [crawlGuardrail cfg runId ts2 "blocklist" page depth
                  parent (some kw)])
          | none =>
            by_cases h4 : shouldSkip cfg page = true
            · simpa [crawlAux, h1, h2, h3, h4] using
                ih rest visited
                  (skipped ++ [skipRecordFor page "skip_keyword_match" parent])
                  gr1 gr2
            · by_cases h5 : cfg.maxDepth ≤ depth
              · simpa [crawlAux, h1, h2, h3, h4, h5] using
                  ih rest
                    (visited ++ [(strLower page.url,
                      ⟨page, depth, parent.bind (fun q => q.pageId)⟩)])
                    skipped gr1 gr2
              · simpa [crawlAux, h1, h2, h3, h4, h5] using
                  ih (rest ++ (((adj.lookup (pageKey page)).getD []).map
                      (fun c => (c, depth + 1, some page))))
                    (visited ++ [(strLower page.url,
                      ⟨page, depth, parent.bind (fun q => q.pageId)⟩)])
                    skipped gr1 gr2

/-- C9: two executions of the BFS crawl that differ only in the wall
clock (the sole nondeterministic input: every other behaviour of the loop
is a function of run id, seeds, adjacency and config) produce identical
visited-record sequences and byte-identical `page_map.jsonl` contents —
the per-record artifact contains no timestamp. -/
theorem bfs_crawl_deterministic (cfg : CrawlConfig) (runId : String)
    (seeds : List PageDescriptor) (adj : List (String × List PageDescriptor))
    (ts1 ts2 : String) :
    (crawl cfg runId ts1 seeds adj).visited =
        (crawl cfg runId ts2 seeds adj).visited ∧
      pageMapJsonl (crawl cfg runId ts1 seeds adj) =
        pageMapJsonl (crawl cfg runId ts2 seeds adj) := by
  have h := (crawlAux_visited_clock_free cfg runId adj ts1 ts2
    (crawlFuel seeds adj) (seeds.map (fun s => (s, 0, none))) [] [] [] []).1
  refine ⟨h, ?_⟩
  simp only [pageMapJsonl, crawl]
  rw [h]

theorem crawlAux_visited_bound (cfg : CrawlConfig) (runId ts : String)
    (adj : List (String × List PageDescriptor))
    (hpos : 0 < cfg.maxNodesPerRun) :
    ∀ (fuel : Nat) (queue : List CrawlItem)
      (visited : List (String × CrawlRecord)) (skipped : List SkipRecord)
      (gr : List GuardrailEvent),
      (visited.length : Int) ≤ cfg.maxNodesPerRun →
      ((crawlAux cfg runId ts adj fuel queue visited skipped gr).visited.length :
        Int) ≤ cfg.maxNodesPerRun := by
  intro fuel
  induction fuel with
  | zero => intro queue visited skipped gr hv; simpa [crawlAux] using hv
  | succ n ih =>
    intro queue visited skipped gr hv
    cases queue with
    | nil => simpa [crawlAux] using hv
    | cons item rest =>
      obtain ⟨page, depth, parent⟩ := item
      by_cases h1 : (visited.lookup (strLower page.url)).isSome = true
      · simpa [crawlAux, h1] using ih rest visited skipped gr hv
      · by_cases h2 : rateLimitedBy cfg.maxNodesPerRun visited.length = true
        · simp [crawlAux, h1, h2]
          omega
        · have hlt : (visited.length : Int) < cfg.maxNodesPerRun := by
            simp only [rateLimitedBy] at h2
            rw [if_neg (by omega)] at h2
            simpa using h2
          have hv' : ((visited ++ [(strLower page.url,
              (⟨page, depth, parent.bind (fun q => q.pageId)⟩ :
                CrawlRecord))]).length : Int) ≤ cfg.maxNodesPerRun := by
            simp
            omega
          cases h3 : matchKeyword cfg.destructiveKeywords page with
          | some kw =>
            simpa [crawlAux, h1, h2, h3] using
              ih rest visited
                (skipped ++ [skipRecordFor page "destructive_blocklist" parent])
                (gr ++ [crawlGuardrail cfg runId ts "blocklist" page depth
                  parent (some kw)]) hv
          | none =>
            by_cases h4 : shouldSkip cfg page = true
            · simpa [crawlAux, h1, h2, h3, h4] using
                ih rest visited
                  (skipped ++ [skipRecordFor page "skip_keyword_match" parent])
                  gr hv
            · by_cases h5 : cfg.maxDepth ≤ depth
              · simpa [crawlAux, h1, h2, h3, h4, h5] using
                  ih rest (visited ++ [(strLower page.url,
                    ⟨page, depth, parent.bind (fun q => q.pageId)⟩)])
                    skipped gr hv'
              · simpa [crawlAux, h1, h2, h3, h4, h5] using
                  ih (rest ++ (((adj.lookup (pageKey page)).getD []).map
                      (fun c => (c, depth + 1, some page))))
                    (visited ++ [(strLower page.url,
                      ⟨page, depth, parent.bind (fun q => q.pageId)⟩)])
                    skipped gr hv'

/-- C8: with `max_nodes_per_run > 0`, (1) the crawl records at most that
many visited pages, and (2) whenever a not-yet-visited page is dequeued
while the visited count has already reached the limit, the loop emits a
`rate_limit` guardrail event and a `rate_limited` skip record for that
page and returns immediately — the rest of the queue is never processed. -/
theorem bfs_rate_limit_contract (cfg : CrawlConfig) (runId ts : String)
    (adj : List (String × List PageDescriptor)) :
    ((0 < cfg.maxNodesPerRun → ∀ (seeds : List PageDescriptor),
        ((crawl cfg runId ts seeds adj).visited.length : Int) ≤
          cfg.maxNodesPerRun) ∧
      (∀ (n : Nat) (page : PageDescriptor) (depth : Int)
          (parent : Option PageDescriptor) (rest : List CrawlItem)
          (visited : List (String × CrawlRecord)) (skipped : List SkipRecord)
          (gr : List GuardrailEvent),
        (visited.lookup (strLower page.url)).isSome = false →
        rateLimitedBy cfg.maxNodesPerRun visited.length = true →
        crawlAux cfg runId ts adj (n + 1) ((page, depth, parent) :: rest)
            visited skipped gr =
          ⟨visited.map Prod.snd,
            skipped ++ [skipRecordFor page "rate_limited" parent],
            gr ++ [crawlGuardrail cfg runId ts "rate_limit" page depth
              parent none]⟩)) := by
  constructor
  · intro hpos seeds
    exact crawlAux_visited_bound cfg runId ts adj hpos (crawlFuel seeds adj)
      (seeds.map (fun s => (s, 0, none))) [] [] [] (by simpa using hpos.le)
  · intro n page depth parent rest visited skipped gr h1 h2
    simp [crawlAux, h1, h2]

/-- Witness for C8: a two-seed crawl with `max_nodes_per_run = 1` visits
at most one page, and a concrete rate-limited dequeue step emits the skip
record and guardrail and stops. -/
theorem bfs_rate_limit_contract_witness :
    ((crawl ⟨3, ["logout"], 1, ["delete"]⟩ "RUN-1" "t0"
        [⟨"https://a.example/x", "X", "mission", some "x", none, none⟩,
         ⟨"https://a.example/y", "Y", "mission", some "y", none, none⟩]
        []).visited.length : Int) ≤ 1 ∧
      crawlAux ⟨3, ["logout"], 1, ["delete"]⟩ "RUN-1" "t0" [] 1
          [(⟨"https://a.example/z", "Z", "mission", some "z", none, none⟩, 0,
            none)]
          [("https://a.example/x",
            ⟨⟨"https://a.example/x", "X", "mission", some "x", none, none⟩, 0,
              none⟩)] [] [] =
        ⟨[⟨⟨"https://a.example/x", "X", "mission", some "x", none, none⟩, 0,
            none⟩],
          [skipRecordFor
            ⟨"https://a.example/z", "Z", "mission", some "z", none, none⟩
            "rate_limited" none],
          [crawlGuardrail ⟨3, ["logout"], 1, ["delete"]⟩ "RUN-1" "t0"
            "rate_limit"
            ⟨"https://a.example/z", "Z", "mission", some "z", none, none⟩ 0
            none none]⟩ := by
  have h := bfs_rate_limit_contract ⟨3, ["logout"], 1, ["delete"]⟩ "RUN-1" "t0" []
  refine ⟨h.1 (by decide)
    [⟨"https://a.example/x", "X", "mission", some "x", none, none⟩,
     ⟨"https://a.example/y", "Y", "mission", some "y", none, none⟩], ?_⟩
  exact h.2 0
    ⟨"https://a.example/z", "Z", "mission", some "z", none, none⟩ 0 none []
    [("https://a.example/x",
      ⟨⟨"https://a.example/x", "X", "mission", some "x", none, none⟩, 0, none⟩)]
    [] [] (by decide) (by decide)

theorem runActivityAux_invocations_le (name : String) (f : Nat → ActOutcome)
    (policy : RetryPolicy) :
    ∀ remaining attempt,
      (runActivityAux name f policy attempt remaining).invocations ≤ remaining := by
  intro remaining
  induction remaining with
  | zero => intro attempt; simp [runActivityAux]
  | succ n ih =>
    intro attempt
    cases h : f attempt with
    | ok => simp [runActivityAux, h]
    | otherErr m => simp [runActivityAux, h]
    | retryableErr m =>
      by_cases hn : n = 0
      · simp [runActivityAux, h, hn]
      · have := ih (attempt + 1)
        simp [runActivityAux, h, hn]
        omega

theorem runActivityAux_retry_of_lt (name : String) (f : Nat → ActOutcome)
    (policy : RetryPolicy) :
    ∀ remaining attempt i,
      i + 1 < (runActivityAux name f policy attempt remaining).invocations →
      (f (attempt + i)).isRetryable = true := by
  intro remaining
  induction remaining with
  | zero => intro attempt i hi; simp [runActivityAux] at hi
  | succ n ih =>
    intro attempt i hi
    cases h : f attempt with
    | ok => simp [runActivityAux, h] at hi
    | otherErr m => simp [runActivityAux, h] at hi
    | retryableErr m =>
      by_cases hn : n = 0
      · simp [runActivityAux, h, hn] at hi
      · simp only [runActivityAux, h, hn, if_neg hn] at hi
        cases i with
        | zero => simpa [ActOutcome.isRetryable] using congrArg ActOutcome.isRetryable h
        | succ j =>
          have := ih (attempt + 1) j (by simpa using Nat.lt_of_succ_lt_succ hi)
          simpa [Nat.add_assoc, Nat.add_comm 1 j] using this

theorem runActivityAux_sleeps (name : String) (f : Nat → ActOutcome)
    (policy : RetryPolicy) :
    ∀ remaining attempt,
      (runActivityAux name f policy attempt remaining).sleeps =
        (List.range
          ((runActivityAux name f policy attempt remaining).invocations - 1)).map
          (fun i => policy.sleepFor (attempt + i + 1)) := by
  intro remaining
  induction remaining with
  | zero => intro attempt; simp [runActivityAux]
  | succ n ih =>
    intro attempt
    cases h : f attempt with
    | ok => simp [runActivityAux, h]
    | otherErr m => simp [runActivityAux, h]
    | retryableErr m =>
      by_cases hn : n = 0
      · simp [runActivityAux, h, hn]
      · have hpos : 1 ≤ (runActivityAux name f policy (attempt + 1) n).invocations := by
          obtain ⟨n', hn'⟩ : ∃ n', n = n' + 1 := ⟨n - 1, by omega⟩
          subst hn'
          cases h' : f (attempt + 1) with
          | ok => simp [runActivityAux, h']
          | otherErr m' => simp [runActivityAux, h']
          | retryableErr m' =>
            by_cases hn'' : n' = 0 <;> simp [runActivityAux, h', hn'']
        obtain ⟨m', hm'⟩ : ∃ m',
            (runActivityAux name f policy (attempt + 1) n).invocations = m' + 1 :=
          ⟨(runActivityAux name f policy (attempt + 1) n).invocations - 1, by omega⟩
        have key := ih (attempt + 1)
        rw [hm', Nat.add_sub_cancel] at key
        simp only [runActivityAux, h, if_neg hn]
        rw [key, hm']
        simp only [Nat.add_sub_cancel, List.range_succ_eq_map, List.map_cons,
          List.map_map]
        refine List.cons_eq_cons.mpr ⟨rfl, ?_⟩
        apply List.map_congr_left
        intro i _
        simp only [Function.comp]
        congr 1
        omega

theorem runActivityAux_terminal (name : String) (f : Nat → ActOutcome)
    (policy : RetryPolicy) :
    ∀ remaining attempt k m, attempt ≤ k →
      k < attempt + (runActivityAux name f policy attempt remaining).invocations →
      f k = .otherErr m →
      (runActivityAux name f policy attempt remaining).invocations = k - attempt + 1 ∧
        (runActivityAux name f policy attempt remaining).result = .raisedOther m ∧
        Checkpoint.mk name .failedCp k ∈
          (runActivityAux name f policy attempt remaining).checkpoints ∧
        Checkpoint.mk name .retryCp k ∉
          (runActivityAux name f policy attempt remaining).checkpoints := by
  intro remaining
  induction remaining with
  | zero => intro attempt k m hak hlt hk; simp [runActivityAux] at hlt; omega
  | succ n ih =>
    intro attempt k m hak hlt hk
    cases h : f attempt with
    | ok =>
      simp [runActivityAux, h] at hlt ⊢
      have : k = attempt := by omega
      subst this
      rw [h] at hk; cases hk
    | otherErr m' =>
      simp [runActivityAux, h] at hlt ⊢
      have hka : k = attempt := by omega
      subst hka
      rw [h] at hk
      cases hk
      simp
    | retryableErr m' =>
      by_cases hn : n = 0
      · simp [runActivityAux, h, hn] at hlt ⊢
        have hka : k = attempt := by omega
        subst hka
        rw [h] at hk; cases hk
      · have hka : attempt ≠ k := by
          intro he; rw [he] at h; rw [h] at hk; cases hk
        have hak1 : attempt + 1 ≤ k := by omega
        simp only [runActivityAux, h, if_neg hn] at hlt ⊢
        have hlt' : k < (attempt + 1) +
            (runActivityAux name f policy (attempt + 1) n).invocations := by omega
        obtain ⟨h1, h2, h3, h4⟩ := ih (attempt + 1) k m hak1 hlt' hk
        refine ⟨by omega, h2,
          List.mem_cons_of_mem _ (List.mem_cons_of_mem _ h3), ?_⟩
        intro hmem
        rcases List.mem_cons.mp hmem with h' | hmem'
        · exact CheckpointKind.noConfusion (congrArg Checkpoint.kind h')
        rcases List.mem_cons.mp hmem' with h' | hmem''
        · exact hka (congrArg Checkpoint.attempt h').symm
        · exact h4 hmem''

theorem runActivityAux_exhaust (name : String) (f : Nat → ActOutcome)
    (policy : RetryPolicy) :
    ∀ remaining attempt, 1 ≤ remaining →
      (∀ k, attempt ≤ k → k < attempt + remaining → (f k).isRetryable = true) →
      (runActivityAux name f policy attempt remaining).invocations = remaining ∧
        (runActivityAux name f policy attempt remaining).result =
          .raisedRetryable ((f (attempt + remaining - 1)).retryMsg) := by
  intro remaining
  induction remaining with
  | zero => intro attempt h0; omega
  | succ n ih =>
    intro attempt _ hall
    have hra : (f attempt).isRetryable = true := hall attempt (le_refl _) (by omega)
    cases h : f attempt with
    | ok => rw [h] at hra; simp [ActOutcome.isRetryable] at hra
    | otherErr m => rw [h] at hra; simp [ActOutcome.isRetryable] at hra
    | retryableErr m =>
      by_cases hn : n = 0
      · subst hn
        simp [runActivityAux, h, ActOutcome.retryMsg]
      · have ihn := ih (attempt + 1) (by omega)
          (fun k hk1 hk2 => hall k (by omega) (by omega))
        simp only [runActivityAux, h, hn, if_neg hn]
        refine ⟨by simp [ihn.1], ?_⟩
        have : attempt + 1 + n - 1 = attempt + (n + 1) - 1 := by omega
        rw [← this]
        simpa using ihn.2

/-- C6: retry contract of `TemporalTaskRunner.run_activity` for any
activity and any policy with `max_attempts ≥ 1`: (1) the activity runs at
most `max_attempts` times; (2) every invocation before the last was a
`RetryableWorkflowError`; (3) the sleep between attempt `k` and `k+1` is
`backoff[min(k, len(backoff)-1)]`, or 0 when the backoff list is empty;
(4) a non-retryable exception at attempt `k` stops the loop at `k` and
propagates with a `<name>.failed` checkpoint and no retry checkpoint for
that attempt; (5) if all allowed attempts raise `RetryableWorkflowError`,
the activity runs exactly `max_attempts` times and the last error
propagates. -/
theorem task_runner_retry_contract (name : String) (policy : RetryPolicy)
    (f : Nat → ActOutcome) (hN : 1 ≤ policy.maxAttempts) :
    (runActivity name policy f).invocations ≤ policy.maxAttempts ∧
      (∀ k, 1 ≤ k → k < (runActivity name policy f).invocations →
        (f k).isRetryable = true) ∧
      ((runActivity name policy f).sleeps =
        (List.range' 1 ((runActivity name policy f).invocations - 1)).map
          (fun k =>
            if policy.backoffSeconds = [] then 0
            else policy.backoffSeconds.getD
              (min k (policy.backoffSeconds.length - 1)) 0)) ∧
      (∀ k m, 1 ≤ k → k ≤ (runActivity name policy f).invocations →
        f k = .otherErr m →
        (runActivity name policy f).invocations = k ∧
          (runActivity name policy f).result = .raisedOther m ∧
          Checkpoint.mk name .failedCp k ∈ (runActivity name policy f).checkpoints ∧
          Checkpoint.mk name .retryCp k ∉ (runActivity name policy f).checkpoints) ∧
      ((∀ k, 1 ≤ k → k ≤ policy.maxAttempts → (f k).isRetryable = true) →
        (runActivity name policy f).invocations = policy.maxAttempts ∧
          (runActivity name policy f).result =
            .raisedRetryable ((f policy.maxAttempts).retryMsg)) := by
  have h0 : policy.maxAttempts ≠ 0 := by omega
  simp only [runActivity, if_neg h0]
  refine ⟨runActivityAux_invocations_le name f policy _ 1, ?_, ?_, ?_, ?_⟩
  · intro k hk1 hklt
    have := runActivityAux_retry_of_lt name f policy policy.maxAttempts 1 (k - 1)
      (by omega)
    simpa [show 1 + (k - 1) = k by omega] using this
  · rw [runActivityAux_sleeps name f policy policy.maxAttempts 1]
    rw [List.range'_eq_map_range]
    rw [List.map_map]
    apply List.map_congr_left
    intro i _
    simp [RetryPolicy.sleepFor, Function.comp, Nat.add_comm 1 i]
  · intro k m hk1 hkle hk
    obtain ⟨h1, h2, h3, h4⟩ := runActivityAux_terminal name f policy
      policy.maxAttempts 1 k m (by omega) (by omega) hk
    exact ⟨by omega, h2, h3, h4⟩
  · intro hall
    have := runActivityAux_exhaust name f policy policy.maxAttempts 1 (by omega)
      (fun k hk1 hk2 => hall k hk1 (by omega))
    simpa [show 1 + policy.maxAttempts - 1 = policy.maxAttempts by omega] using this

/-- Witness for C6 at a concrete always-retryable activity with
`max_attempts = 2` and an empty backoff list. -/
theorem task_runner_retry_contract_witness :
    (runActivity "expl" ⟨2, []⟩ (fun _ => .retryableErr "boom")).invocations ≤ 2 ∧
      (∀ k, 1 ≤ k →
        k < (runActivity "expl" ⟨2, []⟩ (fun _ => .retryableErr "boom")).invocations →
        ((fun _ => ActOutcome.retryableErr "boom") k).isRetryable = true) ∧
      ((runActivity "expl" ⟨2, []⟩ (fun _ => .retryableErr "boom")).sleeps =
        (List.range' 1
          ((runActivity "expl" ⟨2, []⟩
            (fun _ => .retryableErr "boom")).invocations - 1)).map
          (fun k =>
            if ([] : List ℚ) = [] then 0
            else ([] : List ℚ).getD (min k (([] : List ℚ).length - 1)) 0)) ∧
      (∀ k m, 1 ≤ k →
        k ≤ (runActivity "expl" ⟨2, []⟩ (fun _ => .retryableErr "boom")).invocations →
        (fun _ => ActOutcome.retryableErr "boom") k = .otherErr m →
        (runActivity "expl" ⟨2, []⟩ (fun _ => .retryableErr "boom")).invocations = k ∧
          (runActivity "expl" ⟨2, []⟩
            (fun _ => .retryableErr "boom")).result = .raisedOther m ∧
          Checkpoint.mk "expl" .failedCp k ∈
            (runActivity "expl" ⟨2, []⟩ (fun _ => .retryableErr "boom")).checkpoints ∧
          Checkpoint.mk "expl" .retryCp k ∉
            (runActivity "expl" ⟨2, []⟩ (fun _ => .retryableErr "boom")).checkpoints) ∧
      ((∀ k, 1 ≤ k → k ≤ 2 →
          ((fun _ => ActOutcome.retryableErr "boom") k).isRetryable = true) →
        (runActivity "expl" ⟨2, []⟩ (fun _ => .retryableErr "boom")).invocations = 2 ∧
          (runActivity "expl" ⟨2, []⟩ (fun _ => .retryableErr "boom")).result =
            .raisedRetryable
              (((fun _ => ActOutcome.retryableErr "boom") 2).retryMsg)) :=
  task_runner_retry_contract "expl" ⟨2, []⟩ (fun _ => .retryableErr "boom")
    (by decide)

/-- C4 counterexample: with `max_attempts = 3` and an orchestrator that
always returns `success=false`, the auth activity is invoked exactly once,
records no retry checkpoint, and propagates terminally — it is not
retried until the attempt budget is exhausted. -/
theorem auth_bad_result_not_retried_counterexample :
    (runActivity "auth" ⟨3, [0, 0, 0]⟩
        (fun _ => executeAuth false (.dict false (some "boom")))).invocations = 1 ∧
      (runActivity "auth" ⟨3, [0, 0, 0]⟩
        (fun _ => executeAuth false (.dict false (some "boom")))).result =
        .raisedOther "boom" ∧
      ((runActivity "auth" ⟨3, [0, 0, 0]⟩
        (fun _ => executeAuth false (.dict false (some "boom")))).checkpoints.filter
          (fun c => c.kind = CheckpointKind.retryCp)) = [] := by
  refine ⟨?_, ?_, ?_⟩ <;>
    simp [runActivity, runActivityAux, executeAuth, List.filter]

/-- C4 (amended): a non-dict orchestrator result, or one with
`success=false`, makes `_execute_auth` raise a plain (non-retryable)
`WorkflowError` — message from the result's `error` field — and the task
runner treats it as terminal: a single invocation, an `auth.failed`
checkpoint, no retry. -/
theorem auth_bad_result_terminal (policy : RetryPolicy) (r : OrchResult)
    (hN : 1 ≤ policy.maxAttempts) (hbad : r.isBad = true) :
    runActivity "auth" policy (fun _ => executeAuth false r) =
      ⟨[⟨"auth", .attemptCp, 1⟩, ⟨"auth", .failedCp, 1⟩], 1, [],
        .raisedOther r.failMsg⟩ := by
  obtain ⟨n, hn⟩ : ∃ n, policy.maxAttempts = n + 1 := ⟨policy.maxAttempts - 1, by omega⟩
  cases r with
  | notDict =>
    simp [runActivity, hn, runActivityAux, executeAuth, OrchResult.failMsg]
  | dict success err =>
    cases success with
    | false =>
      simp [runActivity, hn, runActivityAux, executeAuth, OrchResult.failMsg]
    | true => simp [OrchResult.isBad] at hbad

/-- Witness for C4's amended claim at a concrete non-dict result. -/
theorem auth_bad_result_terminal_witness :
    runActivity "auth" ⟨2, []⟩ (fun _ => executeAuth false .notDict) =
      ⟨[⟨"auth", .attemptCp, 1⟩, ⟨"auth", .failedCp, 1⟩], 1, [],
        .raisedOther (OrchResult.notDict.failMsg)⟩ :=
  auth_bad_result_terminal ⟨2, []⟩ .notDict (by decide) (by decide)

/-! ## `RunService.create_run` (`run_service.py`) -/

/-- An event as `create_run` appends it to `events.jsonl`:
`{"event": ..., "run_id": ..., "status": ..., "timestamp": ...}` with the
run id left implicit (it is fresh and opaque). -/
structure RunEvent where
  event : String
  status : String
  timestamp : String
deriving DecidableEq, Repr

/-- Everything `create_run` persists that the claims are about. -/
structure CreateRunOutcome where
  manifestStatus : String
  manifestHistory : List StatusEntry
  summaryStatus : String
  summaryHistory : List StatusEntry
  historyFile : List StatusEntry
  events : List RunEvent
deriving DecidableEq, Repr

/-- Embeds `RunService.create_run` (run_service.py:36-116) after payload
validation: the record starts with status `Pending` and history
`[Pending]`; when `invoke_auth_on_create` is set, an orchestrator is
configured and the credentials are non-empty, an `Authenticated` /
`AuthFailed` entry is appended; then status becomes `Running` with a
`Running` entry appended; `_persist_run` writes the manifest, summary and
`status_history.json` from the record; finally the `run.created` event
(status `Running`) is appended to `events.jsonl` and routed through
`_append_status_history`. The four timestamps are the successive
`datetime.now` readings. -/
def createRun (invokeAuthOnCreate hasOrchestrator credsEmpty authSuccess : Bool)
    (tPending tAuth tRunning tEvent : String) : CreateRunOutcome :=
  let hist0 : List StatusEntry := [⟨"Pending", tPending⟩]
  let hist1 :=
    if invokeAuthOnCreate && hasOrchestrator && !credsEmpty then
      hist0 ++ [⟨if authSuccess then "Authenticated" else "AuthFailed", tAuth⟩]
    else hist0
  let hist2 := hist1 ++ [⟨"Running", tRunning⟩]
  let ev : RunEvent := ⟨"run.created", "Running", tEvent⟩
  ⟨"Running", hist2, "Running", hist2,
    appendStatusHistory hist2 "Running" tEvent, [ev]⟩

/-- C5: for every valid intake payload — with or without credentials —
`create_run` under the service configurations the repository constructs
(the API and CLI pass `invoke_auth_on_create=False`; the default service
has no orchestrator) persists manifest, summary and history file with
status history exactly `[Pending, Running]`, manifest status `Running`,
and appends exactly the `run.created` event. -/
theorem create_run_initial_history
    (invokeAuth hasOrch credsEmpty authSuccess : Bool) (tp ta tr te : String)
    (hcfg : invokeAuth = false ∨ hasOrch = false) :
    createRun invokeAuth hasOrch credsEmpty authSuccess tp ta tr te =
      ⟨"Running", [⟨"Pending", tp⟩, ⟨"Running", tr⟩], "Running",
        [⟨"Pending", tp⟩, ⟨"Running", tr⟩],
        [⟨"Pending", tp⟩, ⟨"Running", tr⟩],
        [⟨"run.created", "Running", te⟩]⟩ := by
  rcases hcfg with h | h <;> subst h <;>
    simp [createRun, appendStatusHistory]

/-- Witness for C5 at a concrete configuration (orchestrator present but
`invoke_auth_on_create=False`, as `api.serve` builds it) with credentials
supplied. -/
theorem create_run_initial_history_witness :
    createRun false true false true "t0" "t1" "t2" "t3" =
      ⟨"Running", [⟨"Pending", "t0"⟩, ⟨"Running", "t2"⟩], "Running",
        [⟨"Pending", "t0"⟩, ⟨"Running", "t2"⟩],
        [⟨"Pending", "t0"⟩, ⟨"Running", "t2"⟩],
        [⟨"run.created", "Running", "t3"⟩]⟩ :=
  create_run_initial_history false true false true "t0" "t1" "t2" "t3"
    (Or.inl rfl)

/-! ## Artifact path resolution (`run_service.py` `get_artifact_path`) -/

/-- Splits a character list on `/`, like Python `"…".split("/")` /
the component parsing of `PurePosixPath`. -/
def splitSlashChars : List Char → List (List Char)
  | [] => [[]]
  | c :: rest =>
    let r := splitSlashChars rest
    if c = '/' then [] :: r
    else (c :: r.headD []) :: r.tail

/-- Path components of a string. -/
def splitSlash (s : String) : List String :=
  (splitSlashChars s.toList).map (fun cs => String.mk cs)

/-- Lexical resolution of `.`/`..`/empty components, as
`pathlib.Path.resolve()` performs it for paths without symlinks
(`..` at the root stays at the root). -/
def resolveDots (comps : List String) : List String :=
  comps.foldl
    (fun acc comp =>
      if comp = "" ∨ comp = "." then acc
      else if comp = ".." then acc.dropLast
      else acc ++ [comp])
    []

/-- `str()` of an absolute POSIX path given by its components. -/
def renderPath (comps : List String) : String :=
  comps.foldl (fun acc c => acc ++ "/" ++ c) ""

/-- `true` when the relative-path string is absolute, in which case
`run_dir / relative_path` discards `run_dir` (pathlib semantics). -/
def isAbsPath (s : String) : Bool :=
  match s.toList with
  | '/' :: _ => true
  | _ => false

/-- Embeds the path check of `RunService.get_artifact_path`
(run_service.py:159-180): `candidate = (run_dir / relative_path).resolve()`
and the containment test `str(candidate).startswith(str(base))`; `none`
models the raised `ValueError("invalid artifact path")`. `runDir` is the
already-resolved run directory, given by its components. -/
def getArtifactPath (runDir : List String) (relativePath : String) :
    Option (List String) :=
  let joined :=
    if isAbsPath relativePath then splitSlash relativePath
    else runDir ++ splitSlash relativePath
  let candidate := resolveDots joined
  if (renderPath runDir).toList.IsPrefix (renderPath candidate).toList then
    some candidate
  else none

/-- C2 (code evaluated at the failing input): from run directory
`/root/acme/RUN-A`, the relative path `../RUN-AB/secret.txt` resolves to
the sibling run directory `/root/acme/RUN-AB` — outside the run
directory — yet `get_artifact_path` returns it instead of raising,
because the containment check is a string-prefix test and
`"/root/acme/RUN-AB/secret.txt"` starts with `"/root/acme/RUN-A"`. -/
theorem get_artifact_path_prefix_escape :
    getArtifactPath ["root", "acme", "RUN-A"] "../RUN-AB/secret.txt" =
        some ["root", "acme", "RUN-AB", "secret.txt"] ∧
      ¬ ["root", "acme", "RUN-A"] <+:
          ["root", "acme", "RUN-AB", "secret.txt"] := by
  constructor
  · decide
  · decide

/-! ## Signed artifact URLs (`api.py`) -/

/-- Symbolic model of the lowercase-hex HMAC-SHA256 digest of
`_sign_path` (api.py:980-989): a keyed digest, collision-free across
distinct `(key, message)` pairs — the standard symbolic-crypto reading of
HMAC. -/
structure HmacDigest where
  key : String
  message : String
deriving DecidableEq, Repr

/-- Embeds `_sign_path` (api.py:980-989):
`HMAC(key, f"{run_id}:{organization_slug}:{relative_path}:{expires}")`. -/
def signPath (key runId organizationSlug relativePath : String)
    (expires : Int) : HmacDigest :=
  ⟨key, runId ++ ":" ++ organizationSlug ++ ":" ++ relativePath ++ ":" ++
    toString expires⟩

/-- The outcome of the signed-URL validation of
`_serve_signed_artifact`, one constructor per denial response. -/
inductive DownloadDecision where
  | accepted
  | signingDisabled
  | missingParameters
  | expiredSignature
  | invalidOrganization
  | invalidSignature
deriving DecidableEq, Repr

/-- The query parameters of a signed download URL. An absent parameter is
modelled as the empty string: `parse_qs` yields `None` for it and the
`all([...])` guard treats `None` and `""` alike. The `expires` parameter
is carried as the integer it was rendered from (`str`/`int` round-trip);
the `invalid_expires` branch is unreachable for signer-produced URLs. -/
structure SignedUrlParams where
  runId : String
  organizationSlug : String
  path : String
  expires : Int
  signature : HmacDigest
deriving DecidableEq, Repr

/-- Embeds the signed-URL validation of
`RunRequestHandler._serve_signed_artifact` (api.py:675-745), the gates in
source order: empty key ring → signing disabled; missing parameters;
`expires < now` → expired; a non-empty run slug differing from the URL's
→ invalid organization; then the signature must verify under some
non-empty ring key (`any(key and hmac.compare_digest(...))`). The
subsequent gates (path resolution via `get_artifact_path`, file
existence) concern artifact availability, not URL validity, and are
modelled separately. `expectedSlug` is the run's
`organization_slug` from `get_run_metadata`. -/
def serveSignedArtifact (allKeys : List String) (params : SignedUrlParams)
    (now : Int) (expectedSlug : String) : DownloadDecision :=
  if allKeys = [] then .signingDisabled
  else if params.runId = "" ∨ params.organizationSlug = "" ∨ params.path = ""
    then .missingParameters
  else if params.expires < now then .expiredSignature
  else if expectedSlug ≠ "" ∧ expectedSlug ≠ params.organizationSlug then
    .invalidOrganization
  else if ¬ (allKeys.any (fun key => key != "" &&
      (signPath key params.runId params.organizationSlug params.path
        params.expires == params.signature)) = true) then
    .invalidSignature
  else .accepted

/-- C1: a signed URL produced with key `k` over
`(run_id, org_slug, path, expires)` is accepted by the public download
endpoint's validation iff the verifying ring contains `k`, `now ≤
expires`, and the URL's organization slug equals the run's. The
parameters and the key are non-empty, as they are for every run, key
ring entry and artifact manifest entry the service produces. -/
theorem signed_url_roundtrip (ring : List String)
    (k runId slug path runSlug : String) (expires now : Int)
    (hk : k ≠ "") (hr : runId ≠ "") (hs : slug ≠ "") (hp : path ≠ "")
    (hrs : runSlug ≠ "") :
    serveSignedArtifact ring
        ⟨runId, slug, path, expires, signPath k runId slug path expires⟩
        now runSlug = .accepted ↔
      (k ∈ ring ∧ now ≤ expires ∧ slug = runSlug) := by
  have hany : (ring.any (fun key => key != "" &&
      (signPath key runId slug path expires ==
        signPath k runId slug path expires)) = true) ↔ k ∈ ring := by
    rw [List.any_eq_true]
    constructor
    · rintro ⟨key, hmem, hcond⟩
      simp only [Bool.and_eq_true, bne_iff_ne, ne_eq, beq_iff_eq] at hcond
      obtain ⟨hne, heq⟩ := hcond
      have hkey : key = k := congrArg HmacDigest.key heq
      exact hkey ▸ hmem
    · intro hmem
      exact ⟨k, hmem, by simp [hk]⟩
  by_cases hring : ring = []
  · subst hring
    simp [serveSignedArtifact]
  · rw [serveSignedArtifact, if_neg hring,
      if_neg (by simp [hr, hs, hp] : ¬ (runId = "" ∨ slug = "" ∨ path = ""))]
    by_cases hexp : expires < now
    · rw [if_pos hexp]
      constructor
      · intro h; cases h
      · rintro ⟨-, hle, -⟩; omega
    · rw [if_neg hexp]
      by_cases horg : runSlug ≠ "" ∧ runSlug ≠ slug
      · rw [if_pos horg]
        constructor
        · intro h; cases h
        · rintro ⟨-, -, hsl⟩; exact absurd hsl.symm horg.2
      · rw [if_neg horg]
        have hsl : slug = runSlug := by
          by_contra hne
          exact horg ⟨hrs, fun he => hne he.symm⟩
        by_cases hsig : (ring.any (fun key => key != "" &&
            (signPath key runId slug path expires ==
              signPath k runId slug path expires)) = true)
        · rw [if_neg (by simpa using hsig)]
          simp [hany.mp hsig, hsl]
          omega
        · rw [if_pos (by simpa using hsig)]
          constructor
          · intro h; cases h
          · rintro ⟨hmem, -, -⟩; exact (hsig (hany.mpr hmem)).elim

/-- Witness for C1: a concrete URL signed with the ring's only key, with
matching slug and unexpired timestamp, is accepted. -/
theorem signed_url_roundtrip_witness :
    serveSignedArtifact ["kA"]
        ⟨"RUN-1", "acme", "exploration/coverage_report.json", 100,
          signPath "kA" "RUN-1" "acme" "exploration/coverage_report.json" 100⟩
        50 "acme" = .accepted :=
  (signed_url_roundtrip ["kA"] "kA" "RUN-1" "acme"
      "exploration/coverage_report.json" "acme" 100 50
      (by decide) (by decide) (by decide) (by decide) (by decide)).mpr
    ⟨by simp, by omega, rfl⟩

theorem updateStatusHistory_eq_append (h : List StatusEntry) (s t : String) :
    updateStatusHistory h s t = h ++ [⟨s, t⟩] := by
  simp [updateStatusHistory, appendStatusHistory]

/-- C3 (amended): each `update_status` call appends exactly one entry to the
persisted history, even when the status repeats; the history after a call
sequence is the initial history followed by one entry per call. Only the
event-path helper `_append_status_history` coalesces a trailing duplicate,
and after `update_status`'s own unconditional append it is always a no-op. -/
theorem update_status_appends_one_entry_per_call
    (init : List StatusEntry) (calls : List (String × String)) :
    runUpdateStatusCalls init calls =
      init ++ calls.map (fun c => ⟨c.1, c.2⟩) := by
  induction calls generalizing init with
  | nil => simp [runUpdateStatusCalls]
  | cons c rest ih =>
    simp only [runUpdateStatusCalls, List.foldl_cons] at *
    rw [ih (updateStatusHistory init c.1 c.2), updateStatusHistory_eq_append]
    simp

/-- C3 counterexample: starting from the duplicate-free history
`[Pending, Running]`, two `update_status` calls with status `Failed`
leave the persisted history with two consecutive `Failed` entries, so the
claimed invariant is false at this concrete input. -/
theorem update_status_duplicate_counterexample :
    noConsecutiveDupStatus
        [⟨"Pending", "t0"⟩, ⟨"Running", "t1"⟩] = true ∧
      noConsecutiveDupStatus
        (runUpdateStatusCalls [⟨"Pending", "t0"⟩, ⟨"Running", "t1"⟩]
          [("Failed", "t2"), ("Failed", "t3")]) = false := by
  constructor
  · decide
  · decide

/-- C10: a budget field value that Python `int()` rejects is silently
coerced to the defaults 30 / 200 and produces no validation error; and a
validation error for the budget fields occurs exactly when a coerced value
is ≤ 0. -/
theorem budget_coercion_silent (tv pv : PyVal)
    (ht : pyInt? tv = Option.none) (hp : pyInt? pv = Option.none) :
    coerceInt tv 30 = 30 ∧ coerceInt pv 200 = 200 ∧ budgetErrors tv pv = [] ∧
      (∀ a b : PyVal, budgetErrors a b = [] ↔
        (0 < coerceInt a 30 ∧ 0 < coerceInt b 200)) := by
  have hco : ∀ (v : PyVal) (d : Int), pyInt? v = Option.none → coerceInt v d = d := by
    intro v d hv
    cases v <;> simp_all [coerceInt]
  refine ⟨hco tv 30 ht, hco pv 200 hp, ?_, ?_⟩
  · simp [budgetErrors, hco tv 30 ht, hco pv 200 hp]
  · intro a b
    simp only [budgetErrors, List.append_eq_nil]
    constructor
    · rintro ⟨h1, h2⟩
      refine ⟨?_, ?_⟩
      · by_contra hle
        rw [if_pos (not_lt.mp hle)] at h1
        exact absurd h1 (by simp)
      · by_contra hle
        rw [if_pos (not_lt.mp hle)] at h2
        exact absurd h2 (by simp)
    · rintro ⟨h1, h2⟩
      simp [show ¬ coerceInt a 30 ≤ 0 by omega,
        show ¬ coerceInt b 200 ≤ 0 by omega]

/-- Witness for C10 at the concrete non-integer strings "abc" and "12.5". -/
theorem budget_coercion_silent_witness :
    coerceInt (.strV "abc") 30 = 30 ∧ coerceInt (.strV "12.5") 200 = 200 ∧
      budgetErrors (.strV "abc") (.strV "12.5") = [] ∧
      (∀ a b : PyVal, budgetErrors a b = [] ↔
        (0 < coerceInt a 30 ∧ 0 < coerceInt b 200)) :=
  budget_coercion_silent (.strV "abc") (.strV "12.5") (by decide) (by decide)

end GazeQA
